import Mathlib

/-!
Shallow embedding of the core of intuit/ami-query (Go) for checking its
natural-language specification.

The embedding follows the source files:
  src/amicache/image.go   (Image, Tag, stateWeight, SortByState)
  src/amicache/cache.go   (Cache state, Images, FilterImages, idsFromRegion,
                           getImage, updateCache, getImagesFromOwner, poolSize,
                           the Run select loop)
  src/unnamed/part_005    (filter.go: Filter, FilterByImageID, FilterByTags,
                           FilterByOwnerID, FilterByLaunchPermission)
  src/api/query/params.go (Params, Decode, dedup)

Go maps are modelled as association lists with first-match lookup (a map
write is modelled so that lookup agrees with the Go map after the write);
Go slices as lists; Go uint64 arithmetic as Nat arithmetic mod 2^64;
fallible calls as Except values supplied as inputs.  Concurrent fan-out in
updateCache and the enrichment worker pool write their batches under a
mutex; the embedding processes the branches in input-list order, which
realizes one interleaving — the claims handled here are insensitive to
branch order (they are about membership and pairing, not list positions of
different branches).
-/

deriving instance DecidableEq for Except

namespace AmiQuery

/-- Relevant fields of an aws-sdk ec2.Image tag. -/
structure EC2Tag where
  key : String
  value : String
deriving DecidableEq, Repr

/-- Relevant fields of an aws-sdk ec2.Image (fields unused by the verified
claims are omitted). -/
structure EC2Image where
  imageId : String
  creationDate : String
  tags : List EC2Tag
deriving DecidableEq, Repr

/-- amicache.Image (src/amicache/image.go): an ec2.Image together with the
owner account, the region it was listed in, and the collected launch
permissions (visibility grants). -/
structure Image where
  image : EC2Image
  ownerID : String
  region : String
  launchPerms : List String
deriving DecidableEq, Repr

/-- StateTag constant (image.go line 16). -/
def StateTag : String := "status"

/-- Image.Tag (image.go lines 61-68): value of the first tag with the given
key, or the empty string. -/
def Image.tag (i : Image) (key : String) : String :=
  match i.image.tags.find? (fun tg => tg.key = key) with
  | some tg => tg.value
  | none => ""

/-- The stateWeight lookup table (image.go lines 19-39): lifecycle states
mapped to multiples of 10^10 via iota; anything else weighs 0. -/
def stateWeight (s : String) : Nat :=
  if s = "available" then 7 * 10000000000
  else if s = "deprecated" then 6 * 10000000000
  else if s = "exception" then 5 * 10000000000
  else if s = "unavailable" then 4 * 10000000000
  else if s = "pre-release" then 3 * 10000000000
  else if s = "development" then 2 * 10000000000
  else if s = "deregistered" then 1 * 10000000000
  else 0

/-- Numeric value of an ASCII digit character, if it is one. -/
def digitVal (c : Char) : Option Nat :=
  if '0' ≤ c ∧ c ≤ '9' then some (c.toNat - '0'.toNat) else none

/-- Two-digit decimal number. -/
def num2 (a b : Char) : Option Nat := do
  let x ← digitVal a
  let y ← digitVal b
  pure (10 * x + y)

/-- Four-digit decimal number. -/
def num4 (a b c d : Char) : Option Nat := do
  let x ← num2 a b
  let y ← num2 c d
  pure (100 * x + y)

/-- Gregorian leap-year rule, as used by Go's time package. -/
def isLeap (y : Nat) : Bool :=
  y % 4 == 0 && (y % 100 != 0 || y % 400 == 0)

/-- Days in a month, as validated by Go's time.Parse. -/
def daysInMonth (y m : Nat) : Nat :=
  if m = 2 then (if isLeap y then 29 else 28)
  else if m = 4 ∨ m = 6 ∨ m = 9 ∨ m = 11 then 30
  else 31

/-- Days from the civil epoch 1970-01-01 to year-month-day (proleptic
Gregorian), the standard era/year-of-era computation; agrees with Go's
time.Date(...).Unix() / 86400 for every date time.Parse accepts. -/
def daysFromCivil (y m d : Nat) : Int :=
  let ys : Int := if m ≤ 2 then (y : Int) - 1 else (y : Int)
  let era : Int := Int.fdiv ys 400
  let yoe : Int := ys - era * 400
  let mp : Int := if m > 2 then (m : Int) - 3 else (m : Int) + 9
  let doy : Int := Int.fdiv (153 * mp + 2) 5 + (d : Int) - 1
  let doe : Int := yoe * 365 + Int.fdiv yoe 4 - Int.fdiv yoe 100 + doy
  era * 146097 + doe - 719468

/-- Go time.Parse with the fixed layout of SortByState
(image.go line 85: year-month-day, a literal T, hour:minute:second, a dot,
exactly three fraction digits, a literal Z), returning the Unix epoch in
seconds — the value of time.Time.Unix() — or none if the string does not
match the layout or a component is out of range. -/
def parseCreationDate (s : String) : Option Int :=
  match s.toList with
  | [y1, y2, y3, y4, '-', o1, o2, '-', d1, d2, 'T',
     h1, h2, ':', i1, i2, ':', s1, s2, '.', f1, f2, f3, 'Z'] => do
    let y ← num4 y1 y2 y3 y4
    let mo ← num2 o1 o2
    let d ← num2 d1 d2
    let h ← num2 h1 h2
    let mi ← num2 i1 i2
    let sec ← num2 s1 s2
    let _ ← digitVal f1
    let _ ← digitVal f2
    let _ ← digitVal f3
    if 1 ≤ mo ∧ mo ≤ 12 ∧ 1 ≤ d ∧ d ≤ daysInMonth y mo
        ∧ h ≤ 23 ∧ mi ≤ 59 ∧ sec ≤ 59 then
      some (daysFromCivil y mo d * 86400 + (h : Int) * 3600 + (mi : Int) * 60 + (sec : Int))
    else
      none
  | _ => none

/-- Modulus of Go's uint64 arithmetic. -/
def u64Mod : Nat := 18446744073709551616

/-- The creation-date summand of SortByState's comparator (image.go lines
89-96): uint64(date.Unix()) when the date parses, 0 otherwise.  The int64
to uint64 conversion is two's complement, i.e. reduction mod 2^64. -/
def imageEpoch (i : Image) : Nat :=
  match parseCreationDate i.image.creationDate with
  | some t => (Int.emod t (u64Mod : Int)).toNat
  | none => 0

/-- strings.ToLower as used on state tags: Go lowercases with Unicode
rules; per-character ASCII lowercasing agrees with it on every string
whose lowercase form could equal one of the seven table keys. -/
def lowerASCII (s : String) : String :=
  String.mk (s.toList.map Char.toLower)

/-- The state-tag summand of SortByState's comparator (image.go lines
99-105): the weight of the lowercased state tag when the tag is nonempty,
0 otherwise. -/
def imageStateWeight (i : Image) : Nat :=
  let state := i.tag StateTag
  if state ≠ "" then stateWeight (lowerASCII state) else 0

/-- The comparator value icdate+istate of image.go line 107, in uint64
arithmetic. -/
def imageScore (i : Image) : Nat :=
  (imageEpoch i + imageStateWeight i) % u64Mod

/-- Insert an image in front of the first strictly lower-scored element. -/
def insertByScore (x : Image) : List Image → List Image
  | [] => [x]
  | y :: ys => if imageScore y < imageScore x then x :: y :: ys
               else y :: insertByScore x ys

/-- SortByState (image.go lines 83-109): sort.Slice with the comparator
less(i, j) = score(i) > score(j).  Go's sort guarantees the output is a
permutation of the input that is non-increasing in score; the embedding
realizes this contract with an insertion sort on the same comparator. -/
def SortByState (l : List Image) : List Image :=
  match l with
  | [] => []
  | x :: xs => insertByScore x (SortByState xs)

/-- Filter (part_005 lines 13-29): a chain of image-list transformers; the
FilterFunc adapter makes any such function a stage, so a Filter is a list
of stages. -/
def Filter : Type := List (List Image → List Image)

/-- Filter.Apply (part_005 lines 24-29): run each stage in order, feeding
each the previous stage's output. -/
def Filter.Apply (f : Filter) (images : List Image) : List Image :=
  f.foldl (fun imgs g => g imgs) images

/-- FilterByImageID (part_005 lines 40-55): with a nonempty id list, for
each image append it once per id it matches (the Go inner loop has no
break); an empty id list passes everything through. -/
def FilterByImageID (ids : List String) (images : List Image) : List Image :=
  if ids.length = 0 then images
  else
    images.foldl (fun acc img =>
      ids.foldl (fun acc2 id =>
        if id = img.image.imageId then acc2 ++ [img] else acc2) acc) []

/-- FilterByTags (part_005 lines 57-82): keep an image when its number of
tags matched by the constraint map equals the number of constraint keys; a
tag is matched when the map has its key and the tag's value is among the
accepted values.  An empty map passes everything through.  The constraint
map (a Go map) is an association list with distinct keys. -/
def FilterByTags (tags : List (String × List String)) (images : List Image) :
    List Image :=
  if tags.length = 0 then images
  else
    images.foldl (fun acc img =>
      let tagMatches := img.image.tags.foldl (fun n tg =>
        match tags.lookup tg.key with
        | some values => if tg.value ∈ values then n + 1 else n
        | none => n) 0
      if tagMatches = tags.length then acc ++ [img] else acc) []

/-- FilterByOwnerID (part_005 lines 84-98): keep images whose OwnerID
equals the given id; the empty id passes everything through. -/
def FilterByOwnerID (id : String) (images : List Image) : List Image :=
  if id = "" then images
  else images.foldl (fun acc img =>
    if id = img.ownerID then acc ++ [img] else acc) []

/-- FilterByLaunchPermission (part_005 lines 100-118): keep images whose
launch permissions contain the given account id (inner loop breaks at the
first match); the empty id passes everything through. -/
def FilterByLaunchPermission (id : String) (images : List Image) : List Image :=
  if id = "" then images
  else images.foldl (fun acc img =>
    if img.launchPerms.contains id then acc ++ [img] else acc) []

/-- The snapshot-holding fields of amicache.Cache (cache.go lines 122-141):
the id-to-record map, the region-to-id-list index (both Go maps, modelled
as association lists with first-match lookup), and the configured region
set. -/
structure CacheState where
  cache : List (String × Image)
  regionIndex : List (String × List String)
  regions : List String

/-- idsFromRegion (cache.go lines 334-349): reject a region outside the
configured set; otherwise the region's index list, or empty when the index
has no entry for it. -/
def idsFromRegion (c : CacheState) (region : String) : Except String (List String) :=
  if region ∈ c.regions then
    match c.regionIndex.lookup region with
    | some ids => Except.ok ids
    | none => Except.ok []
  else
    Except.error ("unknown or unsupported region: " ++ region)

/-- getImage (cache.go lines 326-332): map lookup in the cache. -/
def getImage (c : CacheState) (id : String) : Option Image :=
  c.cache.lookup id

/-- Images (cache.go lines 218-231): the region's ids resolved through the
cache, silently dropping ids with no cache entry (the ok-guarded append
loop is a filterMap). -/
def Images (c : CacheState) (region : String) : Except String (List Image) :=
  match idsFromRegion c region with
  | Except.error e => Except.error e
  | Except.ok ids => Except.ok (ids.filterMap (fun id => getImage c id))

/-- FilterImages (cache.go lines 233-240): Images then Filter.Apply, with
the same error behavior. -/
def FilterImages (c : CacheState) (region : String) (filter : Filter) :
    Except String (List Image) :=
  match Images c region with
  | Except.error e => Except.error e
  | Except.ok images => Except.ok (Filter.Apply filter images)

/-- The worker closure of getImagesFromOwner (cache.go lines 401-433),
applied to one queued image.  The DescribeImageAttribute outcome for each
image id is an input function.  An enrichment failure logs and skips the
image (the continue statement); on success the image id is appended to
the index and the Image — with owner, region and the fetched launch
permissions — to the image list, both under one mutex hold.  Several
workers drain the channel concurrently in Go; the embedding folds the
worker over the queue in listing order. -/
def gifoWorker (attr : String → Except Unit (List String))
    (owner region : String) (acc : List Image × List String) (im : EC2Image) :
    List Image × List String :=
  match attr im.imageId with
  | Except.error _ => acc
  | Except.ok perms =>
    (acc.1 ++ [{ image := im, ownerID := owner, region := region,
                 launchPerms := perms }],
     acc.2 ++ [im.imageId])

/-- getImagesFromOwner (cache.go lines 375-449): empty image list and
index when the DescribeImages listing fails (its outcome is an input),
otherwise the worker folded over the listed images. -/
def getImagesFromOwner (describe : Except Unit (List EC2Image))
    (attr : String → Except Unit (List String)) (owner region : String) :
    List Image × List String :=
  match describe with
  | Except.error _ => ([], [])
  | Except.ok ec2Images =>
    ec2Images.foldl (gifoWorker attr owner region) ([], [])

/-- The image the worker produces for one listing entry — some on
enrichment success, none on failure; used to state what the worker fold
accumulates. -/
def gifoKeep (attr : String → Except Unit (List String))
    (owner region : String) (im : EC2Image) : Option Image :=
  match attr im.imageId with
  | Except.error _ => none
  | Except.ok perms =>
    some { image := im, ownerID := owner, region := region,
           launchPerms := perms }

/-- poolSize (cache.go lines 471-479) at its only call site's percent of
0.05 (line 436): size := int(float64(queue) * 0.05) truncates the product
toward zero, which for a nonnegative queue is the floor; in exact
arithmetic that is queue * 5 / 100 in Nat division.  Go computes the
product in float64, which agrees with the exact value here for every
queue size a DescribeImages response can hold (the float64 nearest to
0.05 exceeds it by under 3e-18, far too little to push any product of
these magnitudes across an integer boundary).  The result is then clamped
to at least 1 and at most max. -/
def poolSize (max queue : Nat) : Nat :=
  let size := queue * 5 / 100
  if size < 1 then 1 else if size > max then max else size

/-- The pool-size formula as the spec words it (refinement comparison
only, not translated from the source): clamp(round(queue × percent), 1,
max), with round the usual half-up rounding. -/
def claimedPoolSize (max queue : Nat) (percent : ℚ) : Nat :=
  min max (Nat.max 1 (Int.toNat (round ((queue : ℚ) * percent))))

/-- One owner account's upstream behavior during a refresh cycle: the
assumeRole outcome (cache.go lines 352-370), and per region the
DescribeImages and per-image DescribeImageAttribute outcomes. -/
structure OwnerSpec where
  owner : String
  roleAcquired : Except Unit Unit
  describe : String → Except Unit (List EC2Image)
  attr : String → String → Except Unit (List String)

/-- The write newIndex[region] = append(newIndex[region], index...) of
cache.go line 297: prepend the merged entry so that lookup afterwards sees
it, as it does on the Go map after the write. -/
def idxAppend (idx : List (String × List String)) (region : String)
    (ids : List String) : List (String × List String) :=
  (region, ((idx.lookup region).getD []) ++ ids) :: idx

/-- The writes newCache[*image.Image.ImageId] = image of cache.go lines
298-300: set each image under its id, later writes shadowing earlier
ones. -/
def cacheAdd (cache : List (String × Image)) (images : List Image) :
    List (String × Image) :=
  images.foldl (fun c img => (img.image.imageId, img) :: c) cache

/-- The accumulation phase of updateCache (cache.go lines 264-312): over
every owner (skipping those whose role acquisition failed) and every
configured region, merge that branch's getImagesFromOwner result into the
temporary cache and index under the cycle's mutex.  Branches run
concurrently in Go; the fold realizes one interleaving. -/
def updateCacheNew (regions : List String) (owners : List OwnerSpec) :
    List (String × Image) × List (String × List String) :=
  owners.foldl (fun acc ow =>
    match ow.roleAcquired with
    | Except.error _ => acc
    | Except.ok _ =>
      regions.foldl (fun acc2 region =>
        let res := getImagesFromOwner (ow.describe region) (ow.attr region)
          ow.owner region
        (cacheAdd acc2.1 res.1, idxAppend acc2.2 region res.2)) acc) ([], [])

/-- updateCache (cache.go lines 264-324): build the new snapshot off to
the side; the final select waits on completion or cancellation — on
cancellation it returns before the swap, leaving the served snapshot
untouched; on completion it installs the new cache and index together
under the write lock. -/
def updateCache (c : CacheState) (owners : List OwnerSpec)
    (cancelled : Bool) : CacheState :=
  if cancelled then c
  else { c with cache := (updateCacheNew c.regions owners).1,
                regionIndex := (updateCacheNew c.regions owners).2 }

/-- Error string of context.Canceled. -/
def ctxCanceled : String := "context canceled"

/-- Error string of errCacheStopped (cache.go line 171). -/
def errCacheStopped : String := "cache stopped"

/-- One iteration of the select loop of Run (cache.go lines 195-207): a
TTL tick runs updateCache (possibly cancelled mid-cycle), a done context
returns its error, a stop request returns errCacheStopped. -/
inductive RunEvent where
  | tick (cancelledMidCycle : Bool)
  | ctxDone
  | stopReq

/-- Effect of one Run loop iteration on the cache state, with the loop's
return value when it exits. -/
def runStep (owners : List OwnerSpec) (c : CacheState) :
    RunEvent → CacheState × Option String
  | RunEvent.tick cancelled => (updateCache c owners cancelled, none)
  | RunEvent.ctxDone => (c, some ctxCanceled)
  | RunEvent.stopReq => (c, some errCacheStopped)

/-- The Run select loop over a sequence of events, stopping at the first
exiting event. -/
def runLoop (owners : List OwnerSpec) (c : CacheState) :
    List RunEvent → CacheState × Option String
  | [] => (c, none)
  | ev :: evs =>
    match runStep owners c ev with
    | (c', none) => runLoop owners c' evs
    | (c', some e) => (c', some e)

/-- query.Params (src/api/query/params.go lines 14-22). -/
structure Params where
  regions : List String
  images : List String
  tags : List (String × List String)
  ownerID : String
  launchPerm : String
  callback : String
  pretty : Bool
deriving DecidableEq, Repr

/-- dedup (params.go lines 69-79): drop repeated items, keeping first
occurrences in order. -/
def dedupAux : List String → List String → List String
  | [], _ => []
  | item :: rest, seen =>
    if item ∈ seen then dedupAux rest seen
    else item :: dedupAux rest (item :: seen)

/-- dedup entry point. -/
def dedup (items : List String) : List String := dedupAux items []

/-- The strings.Index split of params.go lines 40-41: the part before the
first colon and the part after it, or none when the string has no
colon. -/
def splitFirstColon (s : String) : Option (String × String) :=
  let cs := s.toList
  match cs.dropWhile (fun c => c ≠ ':') with
  | [] => none
  | _ :: rest => some (String.mk (cs.takeWhile (fun c => c ≠ ':')), String.mk rest)

/-- The write p.tags[key] = append(p.tags[key], values...): extend the
entry in place, or add one. -/
def tagsAppend : List (String × List String) → String → List String →
    List (String × List String)
  | [], key, vs => [(key, vs)]
  | (k, old) :: rest, key, vs =>
    if k = key then (k, old ++ vs) :: rest
    else (k, old) :: tagsAppend rest key vs

/-- One arm of the switch statement of Params.Decode (params.go lines
35-63), applied to one query key with its deduplicated values.  The case
order follows the Go switch.  Go's values[0] accesses rely on
url.ParseQuery never producing an empty value list; the embedding reads
the first value with an empty-string default. -/
def decodeParam (stateTag : String) (p : Params) (kv : String × List String) :
    Except String Params :=
  let values := dedup kv.2
  if kv.1 = "tag" then
    values.foldlM (fun q v =>
      match splitFirstColon v with
      | some kval => Except.ok { q with tags := tagsAppend q.tags kval.1 [kval.2] }
      | none => Except.error ("invalid query tag value: " ++ v)) p
  else if kv.1 = stateTag ∨ kv.1 = "state" ∨ kv.1 = "status" then
    Except.ok { p with tags := tagsAppend p.tags stateTag values }
  else if kv.1 = "ami" then Except.ok { p with images := values }
  else if kv.1 = "region" then Except.ok { p with regions := values }
  else if kv.1 = "owner_id" then Except.ok { p with ownerID := values.headD "" }
  else if kv.1 = "launch_permission" then
    Except.ok { p with launchPerm := values.headD "" }
  else if kv.1 = "callback" then Except.ok { p with callback := values.headD "" }
  else if kv.1 = "pretty" then
    Except.ok { p with pretty := p.pretty || values.headD "" ≠ "0" }
  else Except.error ("unknown query key: " ++ kv.1)

/-- Params.Decode (params.go lines 25-66) after url.ParseQuery: reset the
slice and map fields, then fold the switch over the key/values pairs,
failing at the first offending pair.  Go iterates the parsed-query map in
unspecified order; the embedding takes the pairs as a list — whether
decoding fails, and the claims settled here, do not depend on that
order. -/
def Params.decode (stateTag : String) (p : Params)
    (params : List (String × List String)) : Except String Params :=
  params.foldlM (decodeParam stateTag)
    { p with regions := [], images := [], tags := [] }

/-- Whether the image lists of two snapshot structures can disagree: every
id in any region's index list has an entry in the id-to-record map (the
Snapshot invariant of the spec's data model). -/
def IndexCovered (cache : List (String × Image)) (idx : List (String × List String)) : Prop :=
  ∀ region ids, idx.lookup region = some ids → ∀ id ∈ ids, (cache.lookup id).isSome

/-- Whether a string contains a colon (what strings.Index tests in
params.go line 40). -/
def hasColon (v : String) : Bool :=
  v.toList.contains ':'

/-- The query keys Params.Decode recognizes, in switch order (params.go
lines 37-59). -/
def recognizedKey (stateTag key : String) : Prop :=
  key = "tag" ∨ key = stateTag ∨ key = "state" ∨ key = "status" ∨ key = "ami"
    ∨ key = "region" ∨ key = "owner_id" ∨ key = "launch_permission"
    ∨ key = "callback" ∨ key = "pretty"

instance (stateTag key : String) : Decidable (recognizedKey stateTag key) := by
  unfold recognizedKey
  infer_instance

/- Concrete fixtures used by witness and counterexample theorems. -/

/-- A fixture image with the given creation date and state tag. -/
def mkFixtureImage (id cd st : String) : Image :=
  { image := { imageId := id, creationDate := cd,
               tags := [{ key := "status", value := st }] },
    ownerID := "111122223333", region := "us-west-2", launchPerms := [] }

/-- Fixture: an available image dated 2013-10-25. -/
def imgAvail : Image :=
  mkFixtureImage ("ami-aaaa1111") ("2013-10-25T00:00:00.000Z") ("available")

/-- Fixture: a deprecated image dated 2013-10-29. -/
def imgDeprecated : Image :=
  mkFixtureImage ("ami-bbbb2222") ("2013-10-29T00:00:00.000Z") ("deprecated")

/-- Fixture: a raw listing entry whose enrichment will fail. -/
def ec2ImgW : EC2Image :=
  { imageId := "ami-1a2b3c4d", creationDate := "2017-11-29T16:00:00.000Z",
    tags := [{ key := "status", value := "available" }] }

/-- Fixture: a cache state whose r1 index holds one resolvable id and one
dangling id, and whose region set also holds an indexless region. -/
def cstW : CacheState :=
  { cache := [("ami-aaaa1111", imgAvail)],
    regionIndex := [("us-west-2", ["ami-aaaa1111", "ami-gone9999"])],
    regions := ["us-west-2", "us-east-1"] }

/-- Fixture: one owner account whose single region lists one image and
enriches it successfully. -/
def ownerW : OwnerSpec :=
  { owner := "111122223333",
    roleAcquired := Except.ok (),
    describe := fun _ => Except.ok [ec2ImgW],
    attr := fun _ _ => Except.ok ["111111111111", "111111111112"] }

/-- Fixture: an empty starting cache state over one region. -/
def cInitW : CacheState :=
  { cache := [], regionIndex := [], regions := ["us-west-2"] }

/-- Fixture: a zero-valued Params, as query.go constructs before
decoding. -/
def paramsZero : Params :=
  { regions := [], images := [], tags := [], ownerID := "", launchPerm := "",
    callback := "", pretty := false }

/-! Theorems.  Shared helper lemmas come first, then one theorem per
claim (with its witness or counterexample where required). -/

theorem lookup_isSome_cons (k id : String) (v : α) (l : List (String × α))
    (h : (l.lookup id).isSome) : ((( k, v) :: l).lookup id).isSome := by
  simp only [List.lookup]
  cases hk : id == k <;> simp [h]

theorem cacheAdd_preserves (imgs : List Image) (c : List (String × Image))
    (id : String) (h : (c.lookup id).isSome) :
    ((cacheAdd c imgs).lookup id).isSome := by
  induction imgs generalizing c with
  | nil => exact h
  | cons i rest ih =>
    exact ih ((i.image.imageId, i) :: c) (lookup_isSome_cons _ _ _ _ h)

theorem cacheAdd_covers (imgs : List Image) (c : List (String × Image))
    (img : Image) (h : img ∈ imgs) :
    ((cacheAdd c imgs).lookup img.image.imageId).isSome := by
  revert h
  induction imgs generalizing c with
  | nil => intro h; cases h
  | cons i rest ih =>
    intro h
    rcases List.mem_cons.mp h with h1 | h1
    · subst h1
      exact cacheAdd_preserves rest _ _ (by simp [List.lookup])
    · exact ih _ h1

theorem idxAppend_lookup (idx : List (String × List String)) (region r : String)
    (ids : List String) :
    (idxAppend idx region ids).lookup r
      = if r = region then some (((idx.lookup region).getD []) ++ ids)
        else idx.lookup r := by
  simp only [idxAppend, List.lookup]
  cases hk : r == region
  · simp [beq_iff_eq] at hk
    simp [hk]
  · simp [beq_iff_eq] at hk
    simp [hk]

/-- In a getImagesFromOwner result, the index is exactly the id column of
the image list: the two are appended pairwise under one mutex hold. -/
theorem gifo_snd_eq_map_fst (d : Except Unit (List EC2Image))
    (attr : String → Except Unit (List String)) (owner region : String) :
    (getImagesFromOwner d attr owner region).2
      = (getImagesFromOwner d attr owner region).1.map (fun i => i.image.imageId) := by
  cases d with
  | error e => rfl
  | ok imgs =>
    suffices h : ∀ acc : List Image × List String,
        acc.2 = acc.1.map (fun i => i.image.imageId) →
        (imgs.foldl (gifoWorker attr owner region) acc).2
        = (imgs.foldl (gifoWorker attr owner region) acc).1.map
            (fun i => i.image.imageId) by
      exact h ([], []) rfl
    induction imgs with
    | nil => intro acc hacc; exact hacc
    | cons im rest ih =>
      intro acc hacc
      simp only [List.foldl_cons]
      cases hattr : attr im.imageId with
      | error e => simp only [gifoWorker, hattr]; exact ih acc hacc
      | ok perms =>
        simp only [gifoWorker, hattr]
        exact ih _ (by simp [hacc])

theorem updateCacheNew_covered (regions : List String) (owners : List OwnerSpec) :
    IndexCovered (updateCacheNew regions owners).1 (updateCacheNew regions owners).2 := by
  suffices h : ∀ acc : List (String × Image) × List (String × List String),
      IndexCovered acc.1 acc.2 →
      IndexCovered
        (owners.foldl (fun acc ow =>
          match ow.roleAcquired with
          | Except.error _ => acc
          | Except.ok _ =>
            regions.foldl (fun acc2 region =>
              let res := getImagesFromOwner (ow.describe region) (ow.attr region)
                ow.owner region
              (cacheAdd acc2.1 res.1, idxAppend acc2.2 region res.2)) acc) acc).1
        (owners.foldl (fun acc ow =>
          match ow.roleAcquired with
          | Except.error _ => acc
          | Except.ok _ =>
            regions.foldl (fun acc2 region =>
              let res := getImagesFromOwner (ow.describe region) (ow.attr region)
                ow.owner region
              (cacheAdd acc2.1 res.1, idxAppend acc2.2 region res.2)) acc) acc).2 by
    exact h ([], []) (by intro r ids hr; simp [List.lookup] at hr)
  have hregion : ∀ (ow : OwnerSpec) (acc : List (String × Image) × List (String × List String)),
      IndexCovered acc.1 acc.2 →
      IndexCovered
        (regions.foldl (fun acc2 region =>
          let res := getImagesFromOwner (ow.describe region) (ow.attr region)
            ow.owner region
          (cacheAdd acc2.1 res.1, idxAppend acc2.2 region res.2)) acc).1
        (regions.foldl (fun acc2 region =>
          let res := getImagesFromOwner (ow.describe region) (ow.attr region)
            ow.owner region
          (cacheAdd acc2.1 res.1, idxAppend acc2.2 region res.2)) acc).2 := by
    intro ow
    induction regions with
    | nil => intro acc hacc; exact hacc
    | cons region rest ih =>
      intro acc hacc
      simp only [List.foldl_cons]
      apply ih
      intro r ids hr id hid
      rw [idxAppend_lookup] at hr
      by_cases hrr : r = region
      · rw [if_pos hrr] at hr
        cases hr
        rcases List.mem_append.mp hid with hold | hnew
        · cases hlook : acc.2.lookup region with
          | none => rw [hlook] at hold; cases hold
          | some oldids =>
            rw [hlook] at hold
            exact cacheAdd_preserves _ _ _ (hacc region oldids hlook id hold)
        · rw [gifo_snd_eq_map_fst] at hnew
          rcases List.mem_map.mp hnew with ⟨img, himg, hide⟩
          rw [← hide]
          exact cacheAdd_covers _ _ _ himg
      · rw [if_neg hrr] at hr
        exact cacheAdd_preserves _ _ _ (hacc r ids hr id hid)
  induction owners with
  | nil => intro acc hacc; exact hacc
  | cons ow rest ih =>
    intro acc hacc
    simp only [List.foldl_cons]
    cases how : ow.roleAcquired with
    | error e => simp only [how]; exact ih acc hacc
    | ok u => simp only [how]; exact ih _ (hregion ow acc hacc)

/-- C3: every snapshot state reachable through the Run loop from a covered
state keeps the index covered by the record map — in particular the fresh
pair a refresh cycle builds is covered, and the two structures replace the
served ones only together, in the single swap of updateCache. -/
theorem snapshot_index_covered (owners : List OwnerSpec) (evs : List RunEvent)
    (c : CacheState) (h : IndexCovered c.cache c.regionIndex) :
    IndexCovered (runLoop owners c evs).1.cache (runLoop owners c evs).1.regionIndex
    ∧ IndexCovered (updateCacheNew c.regions owners).1
        (updateCacheNew c.regions owners).2 := by
  refine ⟨?_, updateCacheNew_covered c.regions owners⟩
  induction evs generalizing c with
  | nil => exact h
  | cons ev rest ih =>
    cases ev with
    | tick cancelled =>
      simp only [runLoop, runStep]
      cases cancelled with
      | true => exact ih c h
      | false =>
        apply ih
        simp only [updateCache, if_neg]
        exact updateCacheNew_covered c.regions owners
    | ctxDone => exact h
    | stopReq => exact h

/-- Witness for C3 at a one-owner, one-region, one-image cycle from the
empty state. -/
theorem snapshot_index_covered_witness :
    IndexCovered cInitW.cache cInitW.regionIndex
    ∧ (IndexCovered (runLoop [ownerW] cInitW [RunEvent.tick false]).1.cache
        (runLoop [ownerW] cInitW [RunEvent.tick false]).1.regionIndex
      ∧ IndexCovered (updateCacheNew cInitW.regions [ownerW]).1
          (updateCacheNew cInitW.regions [ownerW]).2) :=
  ⟨by intro r ids hr; simp [cInitW, List.lookup_nil] at hr,
   snapshot_index_covered [ownerW] [RunEvent.tick false] cInitW
     (by intro r ids hr; simp [cInitW, List.lookup_nil] at hr)⟩

/-- C4: a cycle cancelled before completion performs no swap — the served
snapshot is exactly the pre-cycle one and every query reads it unchanged —
and the Run loop returns the context's error. -/
theorem cancelled_cycle_preserves_snapshot (owners : List OwnerSpec)
    (c : CacheState) (evs : List RunEvent) :
    updateCache c owners true = c
    ∧ runLoop owners c (RunEvent.tick true :: RunEvent.ctxDone :: evs)
        = (c, some ctxCanceled)
    ∧ (∀ region, Images (updateCache c owners true) region = Images c region) := by
  refine ⟨rfl, ?_, fun region => rfl⟩
  simp [runLoop, runStep, updateCache]

/-- C5: Images (and FilterImages) fails if and only if the region is
outside the configured set: a configured region with no index entry gives
an empty ok result, an unconfigured one the UnsupportedRegion error. -/
theorem images_unsupportedRegion_iff (c : CacheState) (region : String)
    (f : Filter) :
    ((∃ e, Images c region = Except.error e) ↔ region ∉ c.regions)
    ∧ ((∃ e, FilterImages c region f = Except.error e) ↔ region ∉ c.regions)
    ∧ (region ∈ c.regions → c.regionIndex.lookup region = none →
        Images c region = Except.ok [])
    ∧ (region ∉ c.regions →
        Images c region = Except.error ("unknown or unsupported region: " ++ region)) := by
  by_cases hr : region ∈ c.regions
  · obtain ⟨ids, hids⟩ : ∃ ids, idsFromRegion c region = Except.ok ids := by
      simp only [idsFromRegion, if_pos hr]
      cases c.regionIndex.lookup region <;> exact ⟨_, rfl⟩
    have hok : Images c region = Except.ok (ids.filterMap (fun id => getImage c id)) := by
      simp [Images, hids]
    refine ⟨?_, ?_, ?_, fun habs => absurd hr habs⟩
    · simp [hok, hr]
    · simp [FilterImages, hok, hr]
    · intro _ hnone
      simp [Images, idsFromRegion, if_pos hr, hnone]
  · have herr : idsFromRegion c region
        = Except.error ("unknown or unsupported region: " ++ region) := by
      simp [idsFromRegion, hr]
    have hi : Images c region
        = Except.error ("unknown or unsupported region: " ++ region) := by
      simp [Images, herr]
    refine ⟨?_, ?_, fun hmem => absurd hmem hr, fun _ => hi⟩
    · simp [hi, hr]
    · simp [FilterImages, hi, hr]

/-- Witness for C5: a configured region with no cached entries gives an
empty list, an unconfigured region the error. -/
theorem images_unsupportedRegion_iff_witness :
    Images cstW ("us-east-1") = Except.ok []
    ∧ Images cstW ("eu-west-1")
        = Except.error ("unknown or unsupported region: eu-west-1") :=
  ⟨(images_unsupportedRegion_iff cstW ("us-east-1") ([])).2.2.1
      (by decide) (by decide),
   (images_unsupportedRegion_iff cstW ("eu-west-1") ([])).2.2.2 (by decide)⟩

/-- C10: on a configured region, Images returns exactly the region-index
ids resolved through the record map in index order, and an image is in
the result precisely when some index id maps to it — a dangling id is
skipped without error or placeholder. -/
theorem images_follow_regionIndex (c : CacheState) (region : String)
    (h : region ∈ c.regions) :
    Images c region
      = Except.ok (((c.regionIndex.lookup region).getD []).filterMap
          (fun id => getImage c id))
    ∧ ∀ img : Image,
        (img ∈ ((c.regionIndex.lookup region).getD []).filterMap
            (fun id => getImage c id)
          ↔ ∃ id ∈ (c.regionIndex.lookup region).getD [],
              getImage c id = some img) := by
  constructor
  · cases hl : c.regionIndex.lookup region <;>
      simp [Images, idsFromRegion, if_pos h, hl]
  · intro img
    exact ⟨fun hm => List.mem_filterMap.mp hm,
           fun hm => List.mem_filterMap.mpr hm⟩

/-- Witness for C10: the r1 index holds a resolvable id and a dangling
one; the dangling id is silently skipped. -/
theorem images_follow_regionIndex_witness :
    ("us-west-2" ∈ cstW.regions)
    ∧ Images cstW ("us-west-2") = Except.ok [imgAvail] :=
  ⟨by decide,
   ((images_follow_regionIndex cstW ("us-west-2") (by decide)).1).trans (by decide)⟩

/-- C8: each filter stage with an empty constraint passes every image list
through unchanged. -/
theorem filters_empty_passthrough (images : List Image) :
    FilterByImageID [] images = images
    ∧ FilterByTags [] images = images
    ∧ FilterByOwnerID ("") images = images
    ∧ FilterByLaunchPermission ("") images = images := by
  refine ⟨?_, ?_, ?_, ?_⟩ <;>
    simp [FilterByImageID, FilterByTags, FilterByOwnerID, FilterByLaunchPermission]

/-- Counterexample for C6: at cap 10 and queue 30 the code's pool size is
1 (it truncates 1.5) while the claimed clamp(round(30 × 0.05), 1, 10) is
2. -/
theorem poolSize_round_cex :
    poolSize 10 30 = 1
    ∧ claimedPoolSize 10 30 (1/20) = 2
    ∧ poolSize 10 30 ≠ claimedPoolSize 10 30 (1/20) := by
  have h2 : claimedPoolSize 10 30 (1/20) = 2 := by
    have h : round (((30 : ℕ) : ℚ) * (1/20)) = 2 := by norm_num [round_eq]
    unfold claimedPoolSize
    rw [h]
    rfl
  exact ⟨rfl, h2, by rw [h2]; decide⟩

/-- C6 amended: the pool size is clamp of the TRUNCATED product — with
percent 0.05, clamp(queue*5/100 rounded down, 1, max) — and the four
quoted examples hold. -/
theorem poolSize_clamp_floor (m n : Nat) (h : 1 ≤ m) :
    poolSize m n = min m (Nat.max 1 (n * 5 / 100))
    ∧ poolSize 10 1 = 1 ∧ poolSize 10 42 = 2 ∧ poolSize 10 108 = 5
    ∧ poolSize 2 1000 = 2 := by
  refine ⟨?_, rfl, rfl, rfl, rfl⟩
  have hps : poolSize m n
      = if n * 5 / 100 < 1 then 1
        else if n * 5 / 100 > m then m else n * 5 / 100 := rfl
  rw [hps]
  rcases Nat.lt_or_ge (n * 5 / 100) 1 with h1 | h1
  · rw [if_pos h1]
    have h0 : n * 5 / 100 = 0 := by omega
    rw [h0]
    exact (min_eq_right h).symm
  · have hmax : Nat.max 1 (n * 5 / 100) = n * 5 / 100 := Nat.max_eq_right h1
    rw [if_neg (Nat.not_lt.mpr h1), hmax]
    rcases Nat.lt_or_ge m (n * 5 / 100) with h2 | h2
    · rw [if_pos h2]
      exact (min_eq_left (Nat.le_of_lt h2)).symm
    · rw [if_neg (Nat.not_lt.mpr h2)]
      exact (min_eq_right h2).symm

/-- Witness for C6 amended at cap 10, queue 42. -/
theorem poolSize_clamp_floor_witness :
    (1 ≤ 10)
    ∧ poolSize 10 42 = min 10 (Nat.max 1 (42 * 5 / 100)) :=
  ⟨by decide, (poolSize_clamp_floor 10 42 (by decide)).1⟩

/-- Counterexample for C1: one listed image whose visibility-grant lookup
fails is absent from both the image list and the index of the cycle's
result — it is not included with an empty grant set. -/
theorem enrichment_failure_drops_image_cex :
    getImagesFromOwner (Except.ok [ec2ImgW]) (fun _ => Except.error ())
        ("111122223333") ("us-west-2") = ([], [])
    ∧ ¬ ∃ img ∈ (getImagesFromOwner (Except.ok [ec2ImgW])
        (fun _ => Except.error ()) ("111122223333") ("us-west-2")).1,
        img.image = ec2ImgW :=
  ⟨rfl, by decide⟩

theorem gifo_fst_filterMap (imgs : List EC2Image)
    (attr : String → Except Unit (List String)) (owner region : String) :
    (getImagesFromOwner (Except.ok imgs) attr owner region).1
      = imgs.filterMap (gifoKeep attr owner region) := by
  suffices h : ∀ acc : List Image × List String,
      (imgs.foldl (gifoWorker attr owner region) acc).1
        = acc.1 ++ imgs.filterMap (gifoKeep attr owner region) by
    simpa [getImagesFromOwner] using h ([], [])
  induction imgs with
  | nil => intro acc; simp
  | cons im rest ih =>
    intro acc
    simp only [List.foldl_cons, List.filterMap_cons]
    cases hattr : attr im.imageId with
    | error e =>
      simp only [gifoWorker, gifoKeep, hattr]
      exact ih acc
    | ok perms =>
      simp only [gifoWorker, gifoKeep, hattr]
      rw [ih]
      simp

/-- C1 amended: a per-image enrichment failure causes that image to be
OMITTED from the cycle's result — the image list holds exactly the listed
images whose grant lookup succeeded (each with its fetched grants), the
index is exactly their id column, and no image whose lookup failed
appears. -/
theorem enrichment_failure_drops_image (imgs : List EC2Image)
    (attr : String → Except Unit (List String)) (owner region : String) :
    (getImagesFromOwner (Except.ok imgs) attr owner region).1
      = imgs.filterMap (gifoKeep attr owner region)
    ∧ (getImagesFromOwner (Except.ok imgs) attr owner region).2
      = ((getImagesFromOwner (Except.ok imgs) attr owner region).1).map
          (fun i => i.image.imageId)
    ∧ ∀ im ∈ imgs, (attr im.imageId).isOk = false →
        ∀ img ∈ (getImagesFromOwner (Except.ok imgs) attr owner region).1,
          img.image ≠ im := by
  refine ⟨gifo_fst_filterMap imgs attr owner region,
          gifo_snd_eq_map_fst (Except.ok imgs) attr owner region, ?_⟩
  intro im him hfail img himg heq
  rw [gifo_fst_filterMap] at himg
  rcases List.mem_filterMap.mp himg with ⟨im2, him2, hkeep⟩
  cases hattr : attr im2.imageId with
  | error e => simp [gifoKeep, hattr] at hkeep
  | ok perms =>
    simp only [gifoKeep, hattr, Option.some.injEq] at hkeep
    have him2eq : img.image = im2 := by rw [← hkeep]
    rw [heq] at him2eq
    rw [← him2eq] at hattr
    rw [hattr] at hfail
    simp [Except.isOk, Except.toBool] at hfail

/-- Witness for C1 amended at one listed image whose enrichment fails. -/
theorem enrichment_failure_drops_image_witness :
    (ec2ImgW ∈ [ec2ImgW])
    ∧ (((fun _ => (Except.error () : Except Unit (List String)))
        ec2ImgW.imageId).isOk = false)
    ∧ ∀ img ∈ (getImagesFromOwner (Except.ok [ec2ImgW])
        (fun _ => Except.error ()) ("111122223333") ("us-west-2")).1,
        img.image ≠ ec2ImgW :=
  ⟨by decide, by decide,
   (enrichment_failure_drops_image [ec2ImgW] (fun _ => Except.error ())
      ("111122223333") ("us-west-2")).2.2 ec2ImgW (by decide) (by decide)⟩

theorem insertByScore_perm (x : Image) (l : List Image) :
    (insertByScore x l).Perm (x :: l) := by
  induction l with
  | nil => exact List.Perm.refl _
  | cons y ys ih =>
    simp only [insertByScore]
    by_cases h : imageScore y < imageScore x
    · rw [if_pos h]
    · rw [if_neg h]
      exact (ih.cons y).trans (List.Perm.swap x y ys)

theorem mem_insertByScore (x z : Image) (l : List Image) :
    z ∈ insertByScore x l ↔ z = x ∨ z ∈ l :=
  (insertByScore_perm x l).mem_iff.trans List.mem_cons

theorem sorted_insertByScore (x : Image) (l : List Image)
    (h : List.Sorted (fun a b : Image => imageScore b ≤ imageScore a) l) :
    List.Sorted (fun a b : Image => imageScore b ≤ imageScore a)
      (insertByScore x l) := by
  induction l with
  | nil => simp [insertByScore]
  | cons y ys ih =>
    rcases List.sorted_cons.mp h with ⟨hy, hys⟩
    simp only [insertByScore]
    by_cases hxy : imageScore y < imageScore x
    · rw [if_pos hxy]
      refine List.sorted_cons.mpr ⟨?_, h⟩
      intro z hz
      rcases List.mem_cons.mp hz with rfl | hz
      · exact Nat.le_of_lt hxy
      · exact Nat.le_trans (hy z hz) (Nat.le_of_lt hxy)
    · rw [if_neg hxy]
      refine List.sorted_cons.mpr ⟨?_, ih hys⟩
      intro z hz
      rcases (mem_insertByScore x z ys).mp hz with rfl | hz
      · exact Nat.le_of_not_lt hxy
      · exact hy z hz

theorem sortByState_perm_helper (l : List Image) : (SortByState l).Perm l := by
  induction l with
  | nil => exact List.Perm.refl _
  | cons x xs ih => exact (insertByScore_perm x (SortByState xs)).trans (ih.cons x)

theorem sortByState_sorted_helper (l : List Image) :
    List.Sorted (fun a b : Image => imageScore b ≤ imageScore a) (SortByState l) := by
  induction l with
  | nil => simp [SortByState]
  | cons x xs ih => exact sorted_insertByScore x _ ih

theorem stateWeight_dvd (s : String) : (10000000000 : ℕ) ∣ stateWeight s := by
  unfold stateWeight
  split_ifs <;> norm_num

theorem stateWeight_le (s : String) : stateWeight s ≤ 70000000000 := by
  unfold stateWeight
  split_ifs <;> norm_num

theorem imageStateWeight_eq_ite (i : Image) :
    imageStateWeight i
      = if i.tag StateTag ≠ "" then stateWeight (lowerASCII (i.tag StateTag))
        else 0 := rfl

theorem imageStateWeight_dvd (i : Image) :
    (10000000000 : ℕ) ∣ imageStateWeight i := by
  rw [imageStateWeight_eq_ite]
  split_ifs
  · exact stateWeight_dvd _
  · exact dvd_zero _

theorem imageStateWeight_le (i : Image) : imageStateWeight i ≤ 70000000000 := by
  rw [imageStateWeight_eq_ite]
  split_ifs
  · exact stateWeight_le _
  · exact Nat.zero_le _

theorem imageScore_eq_add (i : Image) (h : imageEpoch i < 10000000000) :
    imageScore i = imageEpoch i + imageStateWeight i := by
  unfold imageScore u64Mod
  apply Nat.mod_eq_of_lt
  have h2 := imageStateWeight_le i
  omega

theorem sorted_score_position (l : List Image)
    (hs : List.Sorted (fun a b : Image => imageScore b ≤ imageScore a) l)
    (i j : Fin l.length)
    (hij : imageScore (l.get i) > imageScore (l.get j)) : (i : Nat) < (j : Nat) := by
  rcases Nat.lt_trichotomy (i : Nat) (j : Nat) with h | h | h
  · exact h
  · exfalso
    have hgij : l.get i = l.get j := by
      congr 1
      exact Fin.ext h
    rw [hgij] at hij
    exact Nat.lt_irrefl _ hij
  · exfalso
    have hji := (List.pairwise_iff_get.mp hs) j i h
    exact absurd hji (Nat.not_le.mpr hij)

/-- C2: SortByState yields a permutation of its input that is
non-increasing in score; score is the creation-date epoch (0 when it does
not parse in the fixed format) plus the state-tag weight, so with both
epochs under 10^10 a strictly heavier state sorts first regardless of
dates, and at equal weight the later date sorts first. -/
theorem sortByState_state_dominates (l : List Image) (a b : Image)
    (ha : imageEpoch a < 10000000000) (hb : imageEpoch b < 10000000000)
    (hw : imageStateWeight a > imageStateWeight b) :
    List.Sorted (fun x y : Image => imageScore y ≤ imageScore x) (SortByState l)
    ∧ (SortByState l).Perm l
    ∧ (∀ i : Image, imageEpoch i < 10000000000 →
        imageScore i = imageEpoch i + imageStateWeight i)
    ∧ imageScore a > imageScore b
    ∧ (∀ c d : Image, imageEpoch c < 10000000000 → imageEpoch d < 10000000000 →
        imageStateWeight c = imageStateWeight d → imageEpoch c > imageEpoch d →
        imageScore c > imageScore d)
    ∧ (∀ i j : Fin (SortByState l).length,
        imageScore ((SortByState l).get i) > imageScore ((SortByState l).get j) →
        (i : Nat) < (j : Nat)) := by
  have hdom : ∀ c d : Image, imageEpoch c < 10000000000 →
      imageEpoch d < 10000000000 →
      imageStateWeight c > imageStateWeight d → imageScore c > imageScore d := by
    intro c d hc hd hcd
    obtain ⟨k1, hk1⟩ := imageStateWeight_dvd c
    obtain ⟨k2, hk2⟩ := imageStateWeight_dvd d
    rw [imageScore_eq_add c hc, imageScore_eq_add d hd]
    omega
  refine ⟨sortByState_sorted_helper l, sortByState_perm_helper l,
          fun i hi => imageScore_eq_add i hi, hdom a b ha hb hw, ?_, ?_⟩
  · intro c d hc hd hweq he
    rw [imageScore_eq_add c hc, imageScore_eq_add d hd]
    omega
  · exact fun i j hij => sorted_score_position _ (sortByState_sorted_helper l) i j hij

/-- Witness for C2: the spec's example — an available image dated
2013-10-25 scores above (and therefore sorts before) a deprecated image
dated 2013-10-29. -/
theorem sortByState_state_dominates_witness :
    (imageEpoch imgAvail < 10000000000)
    ∧ (imageEpoch imgDeprecated < 10000000000)
    ∧ imageStateWeight imgAvail > imageStateWeight imgDeprecated
    ∧ imageScore imgAvail > imageScore imgDeprecated
    ∧ SortByState [imgDeprecated, imgAvail] = [imgAvail, imgDeprecated] :=
  ⟨by decide, by decide, by decide,
   (sortByState_state_dominates [imgDeprecated, imgAvail] imgAvail imgDeprecated
      (by decide) (by decide) (by decide)).2.2.2.1,
   by decide⟩

theorem mem_dedupAux (x : String) (l : List String) :
    ∀ seen, x ∈ dedupAux l seen ↔ x ∈ l ∧ x ∉ seen := by
  induction l with
  | nil => intro seen; simp [dedupAux]
  | cons item rest ih =>
    intro seen
    simp only [dedupAux]
    by_cases hi : item ∈ seen
    · rw [if_pos hi, ih seen]
      constructor
      · exact fun ⟨h1, h2⟩ => ⟨List.mem_cons_of_mem item h1, h2⟩
      · rintro ⟨h1, h2⟩
        rcases List.mem_cons.mp h1 with rfl | h1
        · exact absurd hi h2
        · exact ⟨h1, h2⟩
    · rw [if_neg hi]
      constructor
      · intro h
        rcases List.mem_cons.mp h with rfl | h
        · exact ⟨List.mem_cons_self _ _, hi⟩
        · rcases (ih (item :: seen)).mp h with ⟨h1, h2⟩
          exact ⟨List.mem_cons_of_mem item h1,
                 fun hs => h2 (List.mem_cons_of_mem item hs)⟩
      · rintro ⟨h1, h2⟩
        rcases List.mem_cons.mp h1 with rfl | h1
        · exact List.mem_cons_self _ _
        · by_cases hxi : x = item
          · subst hxi; exact List.mem_cons_self _ _
          · exact List.mem_cons_of_mem item ((ih (item :: seen)).mpr
              ⟨h1, fun hs => by
                rcases List.mem_cons.mp hs with h | h
                · exact hxi h
                · exact h2 h⟩)

theorem mem_dedup (x : String) (l : List String) : x ∈ dedup l ↔ x ∈ l := by
  rw [dedup, mem_dedupAux]
  simp

theorem splitFirstColon_isSome (v : String) :
    ((splitFirstColon v).isSome = true) ↔ hasColon v = true := by
  unfold splitFirstColon hasColon
  rcases hd : v.toList.dropWhile (fun c => c ≠ ':') with _ | ⟨c, rest⟩
  · have hall : ∀ c ∈ v.toList, c ≠ ':' := by
      intro c hc
      exact of_decide_eq_true (List.dropWhile_eq_nil_iff.mp hd c hc)
    simp only [hd]
    constructor
    · intro h; cases h
    · intro h
      rcases List.contains_iff_exists_mem_beq.mp h with ⟨c, hc, hbeq⟩
      exact absurd (eq_of_beq hbeq).symm (hall c hc)
  · simp only [hd, Option.isSome_some, true_iff]
    have hmem : c ∈ v.toList.dropWhile (fun c => c ≠ ':') := by
      rw [hd]; exact List.mem_cons_self _ _
    have hcc : c = ':' := by
      have := List.head_dropWhile_not (p := fun c => decide (c ≠ ':'))
        (l := v.toList)
      rw [hd] at this
      simpa using this (by simp)
    refine List.contains_iff_exists_mem_beq.mpr ⟨c, ?_, by simp [hcc]⟩
    exact (List.dropWhile_suffix _).subset hmem

theorem foldlM_except_isOk {α β : Type} (g : β → α → Except String β)
    (pred : α → Prop) (hg : ∀ q v, ((g q v).isOk = true) ↔ pred v) :
    ∀ (l : List α) (q : β), (((l.foldlM g q).isOk = true) ↔ ∀ v ∈ l, pred v) := by
  intro l
  induction l with
  | nil => intro q; simp [List.foldlM, Except.isOk, Except.toBool, pure, Except.pure]
  | cons v rest ih =>
    intro q
    have hstep : List.foldlM g q (v :: rest)
        = g q v >>= fun q2 => List.foldlM g q2 rest := by
      simp [List.foldlM]
    rw [hstep]
    cases hq : g q v with
    | error e =>
      have hpv : ¬ pred v := by
        rw [← hg q v, hq]
        simp [Except.isOk, Except.toBool]
      have hbind : (Except.error e >>= fun q2 => List.foldlM g q2 rest)
          = (Except.error e : Except String β) := rfl
      rw [hbind]
      simp only [Except.isOk, Except.toBool]
      constructor
      · intro h; cases h
      · intro h; exact absurd (h v (List.mem_cons_self _ _)) hpv
    | ok q2 =>
      have hpv : pred v := (hg q v).mp (by rw [hq]; rfl)
      have hbind : (Except.ok q2 >>= fun q3 => List.foldlM g q3 rest)
          = List.foldlM g q2 rest := rfl
      rw [hbind, ih q2]
      constructor
      · intro h w hw
        rcases List.mem_cons.mp hw with rfl | hw
        · exact hpv
        · exact h w hw
      · intro h w hw
        exact h w (List.mem_cons_of_mem v hw)

theorem decodeParam_isOk (stateTag : String) (p : Params)
    (kv : String × List String) :
    ((decodeParam stateTag p kv).isOk = true) ↔
      (recognizedKey stateTag kv.1
        ∧ (kv.1 = "tag" → ∀ v ∈ kv.2, hasColon v = true)) := by
  unfold decodeParam
  by_cases h1 : kv.1 = "tag"
  · rw [if_pos h1]
    have hfold := foldlM_except_isOk
      (fun q v => match splitFirstColon v with
        | some kval =>
          Except.ok { q with tags := tagsAppend q.tags kval.1 [kval.2] }
        | none => Except.error ("invalid query tag value: " ++ v))
      (fun v => hasColon v = true)
      (by
        intro q v
        cases hs : splitFirstColon v with
        | none =>
          simp only [hs, Except.isOk, Except.toBool]
          constructor
          · intro h; cases h
          · intro h
            have := (splitFirstColon_isSome v).mpr h
            rw [hs] at this
            cases this
        | some kval =>
          simp only [hs, Except.isOk, Except.toBool, true_iff]
          exact (splitFirstColon_isSome v).mp (by rw [hs]; rfl))
      (dedup kv.2) p
    rw [hfold]
    constructor
    · intro h
      refine ⟨Or.inl h1, fun _ v hv => h v ((mem_dedup v kv.2).mpr hv)⟩
    · intro ⟨_, h⟩ v hv
      exact h h1 v ((mem_dedup v kv.2).mp hv)
  · rw [if_neg h1]
    by_cases h2 : kv.1 = stateTag ∨ kv.1 = "state" ∨ kv.1 = "status"
    · rw [if_pos h2]
      simp only [Except.isOk, Except.toBool, true_iff]
      exact ⟨Or.inr (by tauto), fun habs => absurd habs h1⟩
    · rw [if_neg h2]
      by_cases h3 : kv.1 = "ami"
      · rw [if_pos h3]
        simp only [Except.isOk, Except.toBool, true_iff]
        exact ⟨by tauto, fun habs => absurd habs h1⟩
      · rw [if_neg h3]
        by_cases h4 : kv.1 = "region"
        · rw [if_pos h4]
          simp only [Except.isOk, Except.toBool, true_iff]
          exact ⟨by tauto, fun habs => absurd habs h1⟩
        · rw [if_neg h4]
          by_cases h5 : kv.1 = "owner_id"
          · rw [if_pos h5]
            simp only [Except.isOk, Except.toBool, true_iff]
            exact ⟨by tauto, fun habs => absurd habs h1⟩
          · rw [if_neg h5]
            by_cases h6 : kv.1 = "launch_permission"
            · rw [if_pos h6]
              simp only [Except.isOk, Except.toBool, true_iff]
              exact ⟨by tauto, fun habs => absurd habs h1⟩
            · rw [if_neg h6]
              by_cases h7 : kv.1 = "callback"
              · rw [if_pos h7]
                simp only [Except.isOk, Except.toBool, true_iff]
                exact ⟨by tauto, fun habs => absurd habs h1⟩
              · rw [if_neg h7]
                by_cases h8 : kv.1 = "pretty"
                · rw [if_pos h8]
                  simp only [Except.isOk, Except.toBool, true_iff]
                  exact ⟨by tauto, fun habs => absurd habs h1⟩
                · rw [if_neg h8]
                  simp only [Except.isOk, Except.toBool, recognizedKey]
                  constructor
                  · intro h; cases h
                  · intro ⟨hrec, _⟩
                    rcases hrec with h | h | h | h | h | h | h | h | h | h <;>
                      first
                        | exact absurd h h1
                        | exact absurd (Or.inl h) h2
                        | exact absurd (Or.inr (Or.inl h)) h2
                        | exact absurd (Or.inr (Or.inr h)) h2
                        | exact absurd h h3
                        | exact absurd h h4
                        | exact absurd h h5
                        | exact absurd h h6
                        | exact absurd h h7
                        | exact absurd h h8

/-- C9: after query parsing, Decode succeeds exactly when every parameter
key is recognized and every tag value carries a colon; a tag value splits
at its FIRST colon only, so tag=key:value:of:tag filters tag key "key"
with value "value:of:tag". -/
theorem decode_fails_iff (stateTag : String) (p : Params)
    (params : List (String × List String)) (hne : ∀ kv ∈ params, kv.2 ≠ []) :
    (((Params.decode stateTag p params).isOk = true) ↔
      ∀ kv ∈ params, recognizedKey stateTag kv.1
        ∧ (kv.1 = "tag" → ∀ v ∈ kv.2, hasColon v = true))
    ∧ Params.decode stateTag p [(("tag" : String), ["key:value:of:tag"])]
        = Except.ok
            { p with
              regions := [],
              images := [],
              tags := [("key", ["value:of:tag"])] } := by
  constructor
  · exact foldlM_except_isOk (decodeParam stateTag) _
      (fun q kv => decodeParam_isOk stateTag q kv) params
      { p with regions := [], images := [], tags := [] }
  · rfl

/-- Witness for C9: a mixed query with a multi-colon tag value and a state
alias decodes successfully. -/
theorem decode_fails_iff_witness :
    (∀ kv ∈ ([("tag", ["key:value:of:tag", "a:b"]), ("state", ["available"])] :
        List (String × List String)), kv.2 ≠ [])
    ∧ ((Params.decode ("ami_state") paramsZero
        [("tag", ["key:value:of:tag", "a:b"]), ("state", ["available"])]).isOk = true)
    ∧ Params.decode ("ami_state") paramsZero [(("tag" : String), ["key:value:of:tag"])]
        = Except.ok
            { paramsZero with
              regions := [],
              images := [],
              tags := [("key", ["value:of:tag"])] } := by
  refine ⟨by decide, ?_, ?_⟩
  · exact (decode_fails_iff ("ami_state") paramsZero
      [("tag", ["key:value:of:tag", "a:b"]), ("state", ["available"])]
      (by decide)).1.mpr (by decide)
  · exact (decode_fails_iff ("ami_state") paramsZero
      [("tag", ["key:value:of:tag", "a:b"]), ("state", ["available"])]
      (by decide)).2

end AmiQuery
